import Mathlib

/-!
Shallow embedding of the hemli secret-cache core (model.rs, index.rs,
main.rs) and proofs of the specification claims.

Timestamps are modelled as `Int` seconds.  The jiff `Timestamp` type used by
the source is bounded; `checked_add` returns `none` when the sum leaves the
representable range, and the source's `.unwrap()` on that result is modelled
as an `Option` result of the constructor (`none` = panic).
-/

/-- Lower bound of jiff `Timestamp` in whole seconds. -/
def tsMin : Int := -377705023201

/-- Upper bound of jiff `Timestamp` in whole seconds. -/
def tsMax : Int := 253402207200

/-- jiff `Timestamp::checked_add` of a signed duration of `d` seconds:
`none` when the result leaves the representable range. -/
def checked_add (t d : Int) : Option Int :=
  if tsMin ≤ t + d ∧ t + d ≤ tsMax then some (t + d) else none

/-- model.rs `SourceType`: how a source command is executed. -/
inductive SourceType
  | sh
  | cmd
deriving DecidableEq

/-- model.rs `StoredSecret`: the persisted shape of a cached secret. -/
structure StoredSecret where
  value : String
  created_at : Int
  source_command : Option String
  source_type : Option SourceType
  ttl_seconds : Option Int
  expires_at : Option Int
deriving DecidableEq

/-- model.rs `StoredSecret::new`.  The source computes
`expires_at = ttl_seconds.map (|ttl| created_at.checked_add(ttl).unwrap())`;
the `.unwrap()` panic is modelled as result `none`.  `now` stands for
`Timestamp::now()`. -/
def StoredSecret.new (value : String) (source_command : Option String)
    (source_type : Option SourceType) (ttl_seconds : Option Int)
    (now : Int) : Option StoredSecret :=
  let created_at := now
  match ttl_seconds with
  | none =>
      some { value := value, created_at := created_at,
             source_command := source_command, source_type := source_type,
             ttl_seconds := none, expires_at := none }
  | some ttl =>
      match checked_add created_at ttl with
      | none => none
      | some exp =>
          some { value := value, created_at := created_at,
                 source_command := source_command, source_type := source_type,
                 ttl_seconds := some ttl, expires_at := some exp }

/-- model.rs `StoredSecret::is_expired`; `now` stands for `Timestamp::now()`
at the moment of the check. -/
def StoredSecret.is_expired (s : StoredSecret) (now : Int) : Bool :=
  match s.expires_at with
  | some exp => decide (now > exp)
  | none => false

/-- Modelled from the spec: `StoredSecret::recalculate_expires_at` is invoked
by `cmd_edit` in main.rs but its definition is absent from the provided
sources.  Spec §4.1 (`recompute_expiry`): recomputes `expires_at` from
`created_at + ttl_seconds`, or clears it if `ttl_seconds` is absent. -/
def StoredSecret.recalculate_expires_at (s : StoredSecret) : StoredSecret :=
  { s with expires_at := s.ttl_seconds.map (fun ttl => s.created_at + ttl) }

/-- error.rs `HemliError` (backend error payloads are not modelled). -/
inductive HemliError
  | NotFound (ns secret : String)
  | NoSource
  | NoModifications
  | SourceFailed (msg : String)
  | Keyring
  | Serialization
  | Io
deriving DecidableEq

/-- The spec's derived-field invariant: `expires_at` is present iff
`ttl_seconds` is present and then equals `created_at + ttl_seconds`. -/
def SecretInvariant (s : StoredSecret) : Prop :=
  s.expires_at = s.ttl_seconds.map (fun ttl => s.created_at + ttl)

/-- index.rs `IndexEntry` (the `namespace` field is called `ns` here because
`namespace` is a Lean keyword). -/
structure IndexEntry where
  ns : String
  secret : String
  created_at : Int
deriving DecidableEq

/-- index.rs `SecretIndex`. -/
structure SecretIndex where
  entries : List IndexEntry
deriving DecidableEq

/-- index.rs `upsert_entry` body: `iter_mut().find(..)` mutates the first
entry whose (namespace, secret) matches, else pushes a new entry at the
end. -/
def upsertList : List IndexEntry → String → String → Int → List IndexEntry
  | [], ns, secret, t => [⟨ns, secret, t⟩]
  | e :: rest, ns, secret, t =>
    if e.ns == ns && e.secret == secret then
      { e with created_at := t } :: rest
    else
      e :: upsertList rest ns secret t

/-- index.rs `upsert_entry`. -/
def upsert_entry (index : SecretIndex) (ns secret : String)
    (created_at : Int) : SecretIndex :=
  ⟨upsertList index.entries ns secret created_at⟩

/-- index.rs `remove_entry`. -/
def remove_entry (index : SecretIndex) (ns secret : String) : SecretIndex :=
  ⟨index.entries.filter (fun e => !(e.ns == ns && e.secret == secret))⟩

/-- index.rs `filter_entries`. -/
def filter_entries (index : SecretIndex) (ns : Option String) : List IndexEntry :=
  match ns with
  | some n => index.entries.filter (fun e => e.ns == n)
  | none => index.entries

/-- Whether an index entry is keyed by the given (namespace, secret) pair;
the predicate used inside `upsert_entry` and `remove_entry`. -/
def entryMatches (ns secret : String) (e : IndexEntry) : Bool :=
  e.ns == ns && e.secret == secret

/-- store.rs: the OS credential store, modelled as an association list keyed
by (namespace, name). -/
structure Store where
  entries : List ((String × String) × StoredSecret)
deriving DecidableEq

/-- store.rs `get_secret`: lookup by (namespace, name); `none` is the
keyring's `NoEntry` outcome. -/
def Store.get_secret (st : Store) (ns name : String) : Option StoredSecret :=
  (st.entries.find? (fun e => e.1.1 == ns && e.1.2 == name)).map (fun e => e.2)

/-- Replace-or-append used by `Store.set_secret`. -/
def setList : List ((String × String) × StoredSecret) → String → String →
    StoredSecret → List ((String × String) × StoredSecret)
  | [], ns, name, s => [((ns, name), s)]
  | e :: rest, ns, name, s =>
    if e.1.1 == ns && e.1.2 == name then ((ns, name), s) :: rest
    else e :: setList rest ns name s

/-- store.rs `set_secret`: keyring upsert; overwrites any existing entry
under the same key. -/
def Store.set_secret (st : Store) (ns name : String) (s : StoredSecret) : Store :=
  ⟨setList st.entries ns name s⟩

/-- store.rs `delete_secret`: removal; deleting an absent entry is a no-op. -/
def Store.delete_secret (st : Store) (ns name : String) : Store :=
  ⟨st.entries.filter (fun e => !(e.1.1 == ns && e.1.2 == name))⟩

/-- main.rs `cmd_get` source determination (the `if let` chain starting at
"Determine source"): CLI overrides take priority (`source_sh` before
`source_cmd`), then the stored record's remembered command and type, else
`NoSource`. -/
def resolveSource (source_sh source_cmd : Option String)
    (existing : Option StoredSecret) : Except HemliError (String × SourceType) :=
  match source_sh with
  | some sh => .ok (sh, SourceType.sh)
  | none =>
    match source_cmd with
    | some cmd => .ok (cmd, SourceType.cmd)
    | none =>
      match existing with
      | some entry =>
        match entry.source_command, entry.source_type with
        | some cmd, some st => .ok (cmd, st)
        | _, _ => .error HemliError.NoSource
      | none => .error HemliError.NoSource

/-- Observable result of one `cmd_get` run: the printed value or error
(`outcome = none` models a panic), the final credential store and listing
index, and the list of source-resolver invocations in order. -/
structure GetResult where
  outcome : Option (Except HemliError String)
  store : Store
  index : SecretIndex
  fetches : List (String × SourceType)

/-- main.rs `cmd_get`.  `fetch` abstracts `source::fetch_secret`; `now`
stands for `Timestamp::now()` during this run.  The store and index are
threaded as explicit state; `fetches` records each resolver invocation. -/
def cmd_get (fetch : String → SourceType → Except HemliError String)
    (st : Store) (idx : SecretIndex) (ns secret : String)
    (force_refresh no_refresh no_store : Bool)
    (ttl : Option Int) (source_sh source_cmd : Option String)
    (now : Int) : GetResult :=
  let existing := st.get_secret ns secret
  if no_refresh then
    match existing with
    | some entry => ⟨some (.ok entry.value), st, idx, []⟩
    | none => ⟨some (.error (HemliError.NotFound ns secret)), st, idx, []⟩
  else
    let needs_refresh := force_refresh || existing.isNone ||
      existing.any (fun e => e.is_expired now)
    if !needs_refresh then
      match existing with
      | some entry => ⟨some (.ok entry.value), st, idx, []⟩
      | none => ⟨none, st, idx, []⟩
    else
      match resolveSource source_sh source_cmd existing with
      | .error e => ⟨some (.error e), st, idx, []⟩
      | .ok (cmd_str, src_type) =>
        match fetch cmd_str src_type with
        | .error e => ⟨some (.error e), st, idx, [(cmd_str, src_type)]⟩
        | .ok value =>
          let effective_ttl := ttl.or (existing.bind (fun e => e.ttl_seconds))
          match StoredSecret.new value (some cmd_str) (some src_type)
              effective_ttl now with
          | none => ⟨none, st, idx, [(cmd_str, src_type)]⟩
          | some stored =>
            if !no_store then
              ⟨some (.ok value), st.set_secret ns secret stored,
               upsert_entry idx ns secret stored.created_at,
               [(cmd_str, src_type)]⟩
            else
              ⟨some (.ok value), st, idx, [(cmd_str, src_type)]⟩

/-- The TTL mutation block of main.rs `cmd_edit`: `clear_ttl` wins over a
new `ttl`; both paths call `recalculate_expires_at`. -/
def editTtlStep (ttl : Option Int) (clear_ttl : Bool)
    (stored : StoredSecret) : StoredSecret :=
  if clear_ttl then
    StoredSecret.recalculate_expires_at { stored with ttl_seconds := none }
  else
    match ttl with
    | some t =>
        StoredSecret.recalculate_expires_at { stored with ttl_seconds := some t }
    | none => stored

/-- The source-command mutation block of main.rs `cmd_edit`. -/
def editSourceStep (source_sh source_cmd : Option String)
    (stored : StoredSecret) : StoredSecret :=
  match source_sh with
  | some sh =>
      { stored with source_command := some sh,
                    source_type := some SourceType.sh }
  | none =>
    match source_cmd with
    | some cmd =>
        { stored with source_command := some cmd,
                      source_type := some SourceType.cmd }
    | none => stored

/-- main.rs `cmd_edit` on the record level: `existing` is the result of
`store::get_secret`; the returned record is the one passed to
`store::set_secret`. -/
def cmd_edit (existing : Option StoredSecret) (ns secret : String)
    (ttl : Option Int) (clear_ttl : Bool)
    (source_sh source_cmd : Option String) : Except HemliError StoredSecret :=
  if ttl.isNone && !clear_ttl && source_sh.isNone && source_cmd.isNone then
    .error HemliError.NoModifications
  else
    match existing with
    | none => .error (HemliError.NotFound ns secret)
    | some stored =>
        .ok (editSourceStep source_sh source_cmd (editTtlStep ttl clear_ttl stored))

/-! ## Helper lemmas -/

theorem editSourceStep_value (source_sh source_cmd : Option String)
    (stored : StoredSecret) :
    (editSourceStep source_sh source_cmd stored).value = stored.value := by
  unfold editSourceStep
  cases source_sh <;> cases source_cmd <;> rfl

theorem editSourceStep_created_at (source_sh source_cmd : Option String)
    (stored : StoredSecret) :
    (editSourceStep source_sh source_cmd stored).created_at = stored.created_at := by
  unfold editSourceStep
  cases source_sh <;> cases source_cmd <;> rfl

theorem editSourceStep_ttl_seconds (source_sh source_cmd : Option String)
    (stored : StoredSecret) :
    (editSourceStep source_sh source_cmd stored).ttl_seconds = stored.ttl_seconds := by
  unfold editSourceStep
  cases source_sh <;> cases source_cmd <;> rfl

theorem editSourceStep_expires_at (source_sh source_cmd : Option String)
    (stored : StoredSecret) :
    (editSourceStep source_sh source_cmd stored).expires_at = stored.expires_at := by
  unfold editSourceStep
  cases source_sh <;> cases source_cmd <;> rfl

theorem editTtlStep_value (ttl : Option Int) (clear_ttl : Bool)
    (stored : StoredSecret) :
    (editTtlStep ttl clear_ttl stored).value = stored.value := by
  unfold editTtlStep StoredSecret.recalculate_expires_at
  cases clear_ttl <;> cases ttl <;> rfl

theorem editTtlStep_created_at (ttl : Option Int) (clear_ttl : Bool)
    (stored : StoredSecret) :
    (editTtlStep ttl clear_ttl stored).created_at = stored.created_at := by
  unfold editTtlStep StoredSecret.recalculate_expires_at
  cases clear_ttl <;> cases ttl <;> rfl

theorem editTtlStep_clear (ttl : Option Int) (stored : StoredSecret) :
    (editTtlStep ttl true stored).ttl_seconds = none ∧
    (editTtlStep ttl true stored).expires_at = none := by
  unfold editTtlStep StoredSecret.recalculate_expires_at
  exact ⟨rfl, rfl⟩

theorem editTtlStep_set (t : Int) (stored : StoredSecret) :
    (editTtlStep (some t) false stored).ttl_seconds = some t ∧
    (editTtlStep (some t) false stored).expires_at = some (stored.created_at + t) := by
  unfold editTtlStep StoredSecret.recalculate_expires_at
  exact ⟨rfl, rfl⟩

theorem cmd_edit_ok_inv (stored : StoredSecret) (ns secret : String)
    (ttl : Option Int) (clear_ttl : Bool) (source_sh source_cmd : Option String)
    (s : StoredSecret)
    (hok : cmd_edit (some stored) ns secret ttl clear_ttl source_sh source_cmd = .ok s) :
    s = editSourceStep source_sh source_cmd (editTtlStep ttl clear_ttl stored) := by
  unfold cmd_edit at hok
  split at hok
  · exact absurd hok (by simp)
  · simpa using hok.symm

/-! ## Claim theorems -/

/-- C4: `is_expired` is `false` when `expires_at` is absent, otherwise it is
`true` iff `now` is strictly greater than `expires_at`; for a record
satisfying the derived-field invariant with `ttl_seconds = t`, it is `false`
at `created_at + t` exactly and `true` at `created_at + t + 1`. -/
theorem c4_is_expired_semantics (s : StoredSecret) (now t : Int)
    (hinv : SecretInvariant s) :
    (s.expires_at = none → s.is_expired now = false) ∧
    (∀ e, s.expires_at = some e → (s.is_expired now = true ↔ e < now)) ∧
    (s.ttl_seconds = some t →
      s.is_expired (s.created_at + t) = false ∧
      s.is_expired (s.created_at + t + 1) = true) := by
  refine ⟨?_, ?_, ?_⟩
  · intro h
    simp [StoredSecret.is_expired, h]
  · intro e h
    simp [StoredSecret.is_expired, h]
  · intro ht
    have he : s.expires_at = some (s.created_at + t) := by
      rw [hinv, ht]
      rfl
    constructor
    · simp [StoredSecret.is_expired, he]
    · simp [StoredSecret.is_expired, he]

theorem c4_is_expired_semantics_witness :
    (StoredSecret.mk "v" 0 none none (some 5) (some 5)).is_expired (0 + 5) = false ∧
    (StoredSecret.mk "v" 0 none none (some 5) (some 5)).is_expired (0 + 5 + 1) = true :=
  (c4_is_expired_semantics (StoredSecret.mk "v" 0 none none (some 5) (some 5))
    0 5 (by simp [SecretInvariant])).2.2 rfl

/-- C10: the constructor is not total in `ttl_seconds`: an i64-representable
TTL whose sum with `created_at` leaves the representable timestamp range
makes the `unwrap` panic (modelled as `none`), while every TTL whose sum
stays in range returns normally. -/
theorem c10_new_not_total :
    (StoredSecret.new "v" none none (some (2 ^ 62)) 0 = none ∧
      -(2 ^ 63) ≤ (2 ^ 62 : Int) ∧ (2 ^ 62 : Int) ≤ 2 ^ 63 - 1) ∧
    (∀ (v : String) (sc : Option String) (sty : Option SourceType) (ttl now : Int),
      tsMin ≤ now + ttl → now + ttl ≤ tsMax →
      (StoredSecret.new v sc sty (some ttl) now).isSome = true) := by
  constructor
  · refine ⟨?_, by norm_num, by norm_num⟩
    decide
  · intro v sc sty ttl now h1 h2
    simp [StoredSecret.new, checked_add, h1, h2]

theorem c10_new_not_total_witness :
    (StoredSecret.new "x" none none (some 10) 0).isSome = true :=
  c10_new_not_total.2 "x" none none 10 0 (by decide) (by decide)

/-- C1: every record produced by `StoredSecret::new` (when it returns) and
every record produced by `cmd_edit` with a TTL mutation (a new `ttl` or
`clear_ttl`) satisfies the derived-field invariant: `expires_at` is present
iff `ttl_seconds` is present, and then equals `created_at + ttl_seconds`. -/
theorem c1_secret_invariant
    (v : String) (sc : Option String) (sty : Option SourceType)
    (ttl0 : Option Int) (now : Int) (ns name : String)
    (existing : Option StoredSecret) (ttl : Option Int) (clear_ttl : Bool)
    (source_sh source_cmd : Option String) :
    (∀ s, StoredSecret.new v sc sty ttl0 now = some s → SecretInvariant s) ∧
    (∀ s, clear_ttl = true ∨ ttl.isSome = true →
      cmd_edit existing ns name ttl clear_ttl source_sh source_cmd = .ok s →
      SecretInvariant s) := by
  constructor
  · intro s hs
    cases ttl0 with
    | none =>
        simp [StoredSecret.new] at hs
        rw [← hs]
        rfl
    | some ttl1 =>
        simp only [StoredSecret.new] at hs
        cases h : checked_add now ttl1 with
        | none =>
            rw [h] at hs
            simp at hs
        | some exp =>
            rw [h] at hs
            simp at hs
            have hexp : exp = now + ttl1 := by
              unfold checked_add at h
              split at h
              · exact (Option.some.inj h).symm
              · simp at h
            rw [← hs]
            simp [SecretInvariant, hexp]
  · intro s hmod hok
    cases existing with
    | none =>
        unfold cmd_edit at hok
        split at hok <;> simp at hok
    | some stored =>
        have hs := cmd_edit_ok_inv stored ns name ttl clear_ttl
          source_sh source_cmd s hok
        subst hs
        unfold SecretInvariant
        rw [editSourceStep_expires_at, editSourceStep_ttl_seconds,
          editSourceStep_created_at]
        cases clear_ttl with
        | true =>
            rw [(editTtlStep_clear ttl stored).1, (editTtlStep_clear ttl stored).2]
            rfl
        | false =>
            cases ttl with
            | none => simp at hmod
            | some t =>
                rw [(editTtlStep_set t stored).1, (editTtlStep_set t stored).2,
                  editTtlStep_created_at]
                rfl

theorem c1_secret_invariant_witness :
    SecretInvariant (StoredSecret.mk "v" 0 none none (some 5) (some 5)) :=
  (c1_secret_invariant "v" none none (some 5) 0 "a" "b" none none false none
    none).1 (StoredSecret.mk "v" 0 none none (some 5) (some 5)) (by decide)

/-- C3 counterexample: an edit of a missing record with no modification
flags fails with `NoModifications`, not `NotFound` — `cmd_edit` runs the
no-modifications check before the existence check. -/
theorem c3_counterexample_no_mods :
    cmd_edit none "ns" "sec" none false none none =
      .error HemliError.NoModifications ∧
    HemliError.NoModifications ≠ HemliError.NotFound "ns" "sec" :=
  ⟨rfl, by decide⟩

/-- C3 (amended): an edit targeting a pair with no cached record fails with
`NotFound` for every flag combination that specifies at least one
modification; when no modification is specified it fails with
`NoModifications` instead (that check runs first). -/
theorem c3_edit_missing (ns name : String) (ttl : Option Int)
    (clear_ttl : Bool) (source_sh source_cmd : Option String) :
    (ttl.isSome = true ∨ clear_ttl = true ∨ source_sh.isSome = true ∨
        source_cmd.isSome = true →
      cmd_edit none ns name ttl clear_ttl source_sh source_cmd =
        .error (HemliError.NotFound ns name)) ∧
    (ttl = none → clear_ttl = false → source_sh = none → source_cmd = none →
      cmd_edit none ns name ttl clear_ttl source_sh source_cmd =
        .error HemliError.NoModifications) := by
  constructor
  · intro hmod
    unfold cmd_edit
    split
    · rename_i h
      simp only [Bool.and_eq_true, Option.isNone_iff_eq_none,
        Bool.not_eq_true'] at h
      rcases hmod with h1 | h1 | h1 | h1 <;> simp_all
    · rfl
  · intro h1 h2 h3 h4
    subst h1; subst h2; subst h3; subst h4
    rfl

theorem c3_edit_missing_witness :
    cmd_edit none "a" "b" none true none none =
      .error (HemliError.NotFound "a" "b") :=
  (c3_edit_missing "a" "b" none true none none).1 (Or.inr (Or.inl rfl))

/-- C8: a successful edit of an existing record preserves `value` and
`created_at`; `clear_ttl` clears both TTL fields regardless of prior
values; a new `ttl` (with `clear_ttl` unset — the CLI makes the two flags
mutually exclusive) sets `ttl_seconds` and recomputes `expires_at` from the
original `created_at`, not the edit time. -/
theorem c8_edit_semantics (stored : StoredSecret) (ns name : String)
    (ttl : Option Int) (clear_ttl : Bool) (source_sh source_cmd : Option String)
    (s : StoredSecret)
    (hok : cmd_edit (some stored) ns name ttl clear_ttl source_sh source_cmd = .ok s) :
    s.value = stored.value ∧ s.created_at = stored.created_at ∧
    (clear_ttl = true → s.ttl_seconds = none ∧ s.expires_at = none) ∧
    (clear_ttl = false → ∀ t, ttl = some t →
      s.ttl_seconds = some t ∧ s.expires_at = some (stored.created_at + t)) := by
  have hs := cmd_edit_ok_inv stored ns name ttl clear_ttl source_sh source_cmd s hok
  subst hs
  refine ⟨?_, ?_, ?_, ?_⟩
  · rw [editSourceStep_value, editTtlStep_value]
  · rw [editSourceStep_created_at, editTtlStep_created_at]
  · intro hc
    subst hc
    exact ⟨by rw [editSourceStep_ttl_seconds, (editTtlStep_clear ttl stored).1],
           by rw [editSourceStep_expires_at, (editTtlStep_clear ttl stored).2]⟩
  · intro hc t ht
    subst hc
    subst ht
    exact ⟨by rw [editSourceStep_ttl_seconds, (editTtlStep_set t stored).1],
           by rw [editSourceStep_expires_at, (editTtlStep_set t stored).2]⟩

theorem c8_edit_semantics_witness :
    (StoredSecret.mk "v" 0 none none (some 7) (some (0 + 7))).ttl_seconds = some 7 ∧
    (StoredSecret.mk "v" 0 none none (some 7) (some (0 + 7))).expires_at =
      some ((StoredSecret.mk "v" 0 none none none none).created_at + 7) :=
  (c8_edit_semantics (StoredSecret.mk "v" 0 none none none none) "a" "b"
    (some 7) false none none
    (StoredSecret.mk "v" 0 none none (some 7) (some (0 + 7))) rfl).2.2.2 rfl 7 rfl

/-- C5: with `no_refresh` set, a cached record's value is returned verbatim
(even if expired), a missing record fails with `NotFound`, and in both cases
the source resolver is never invoked and store and index are untouched. -/
theorem c5_no_refresh_semantics (fetch : String → SourceType → Except HemliError String)
    (st : Store) (idx : SecretIndex) (ns name : String)
    (force_refresh no_store : Bool) (ttl : Option Int)
    (source_sh source_cmd : Option String) (now : Int) :
    (∀ e, st.get_secret ns name = some e →
      cmd_get fetch st idx ns name force_refresh true no_store ttl
          source_sh source_cmd now =
        ⟨some (.ok e.value), st, idx, []⟩) ∧
    (st.get_secret ns name = none →
      cmd_get fetch st idx ns name force_refresh true no_store ttl
          source_sh source_cmd now =
        ⟨some (.error (HemliError.NotFound ns name)), st, idx, []⟩) := by
  constructor
  · intro e he
    simp [cmd_get, he]
  · intro he
    simp [cmd_get, he]

theorem c5_no_refresh_semantics_witness :
    cmd_get (fun _ _ => .ok "z") ⟨[]⟩ ⟨[]⟩ "a" "b" false true false none
        none none 0 =
      ⟨some (.error (HemliError.NotFound "a" "b")), ⟨[]⟩, ⟨[]⟩, []⟩ :=
  (c5_no_refresh_semantics (fun _ _ => .ok "z") ⟨[]⟩ ⟨[]⟩ "a" "b" false false
    none none none 0).2 rfl

/-- C6: a plain cache hit (`no_refresh` and `force_refresh` unset, cached
record present and not expired) returns the cached value and changes
nothing: the store, the index and hence the record's `created_at` are all
unchanged, and the source resolver is never invoked. -/
theorem c6_cache_hit_frame (fetch : String → SourceType → Except HemliError String)
    (st : Store) (idx : SecretIndex) (ns name : String) (no_store : Bool)
    (ttl : Option Int) (source_sh source_cmd : Option String) (now : Int)
    (e : StoredSecret) (he : st.get_secret ns name = some e)
    (hfresh : e.is_expired now = false) :
    cmd_get fetch st idx ns name false false no_store ttl
        source_sh source_cmd now =
      ⟨some (.ok e.value), st, idx, []⟩ := by
  simp [cmd_get, he, hfresh]

theorem c6_cache_hit_frame_witness :
    cmd_get (fun _ _ => .ok "z")
        ⟨[(("a", "b"), StoredSecret.mk "v" 0 none none none none)]⟩ ⟨[]⟩
        "a" "b" false false false none none none 0 =
      ⟨some (.ok "v"),
        ⟨[(("a", "b"), StoredSecret.mk "v" 0 none none none none)]⟩, ⟨[]⟩, []⟩ :=
  c6_cache_hit_frame (fun _ _ => .ok "z")
    ⟨[(("a", "b"), StoredSecret.mk "v" 0 none none none none)]⟩ ⟨[]⟩
    "a" "b" false none none none 0
    (StoredSecret.mk "v" 0 none none none none) rfl rfl

/-- When a refresh is needed and the source resolves, `cmd_get` invokes the
resolver exactly once, with the resolved command and mode. -/
theorem cmd_get_resolved_fetches
    (fetch : String → SourceType → Except HemliError String)
    (st : Store) (idx : SecretIndex) (ns name : String)
    (force_refresh no_store : Bool) (ttl : Option Int)
    (source_sh source_cmd : Option String) (now : Int) (c : String) (m : SourceType)
    (hneed : (force_refresh || (st.get_secret ns name).isNone ||
      (st.get_secret ns name).any (fun e => e.is_expired now)) = true)
    (hres : resolveSource source_sh source_cmd (st.get_secret ns name) = .ok (c, m)) :
    (cmd_get fetch st idx ns name force_refresh false no_store ttl
        source_sh source_cmd now).fetches = [(c, m)] := by
  cases hf : fetch c m with
  | error e =>
      simp [cmd_get, hneed, hres, hf]
  | ok v =>
      cases hn : StoredSecret.new v (some c) (some m)
          (ttl.or ((st.get_secret ns name).bind (fun e => e.ttl_seconds))) now with
      | none =>
          simp [cmd_get, hneed, hres, hf, hn]
      | some s =>
          cases no_store <;> simp [cmd_get, hneed, hres, hf, hn]

/-- When a refresh is needed and no source is available, `cmd_get` fails
with the resolver's error, touches nothing and never invokes the
resolver. -/
theorem cmd_get_unresolved (fetch : String → SourceType → Except HemliError String)
    (st : Store) (idx : SecretIndex) (ns name : String)
    (force_refresh no_store : Bool) (ttl : Option Int)
    (source_sh source_cmd : Option String) (now : Int) (err : HemliError)
    (hneed : (force_refresh || (st.get_secret ns name).isNone ||
      (st.get_secret ns name).any (fun e => e.is_expired now)) = true)
    (hres : resolveSource source_sh source_cmd (st.get_secret ns name) = .error err) :
    cmd_get fetch st idx ns name force_refresh false no_store ttl
        source_sh source_cmd now = ⟨some (.error err), st, idx, []⟩ := by
  simp [cmd_get, hneed, hres]

/-- C2: when a get (without `no_refresh`) needs a refresh, the effective
source follows strict precedence: an explicit `source_sh` override wins,
then an explicit `source_cmd` override, then the existing record's
remembered `source_command`/`source_type`; if none is available the request
fails with `NoSource` and the source resolver is never invoked. -/
theorem c2_source_precedence (fetch : String → SourceType → Except HemliError String)
    (st : Store) (idx : SecretIndex) (ns name : String)
    (force_refresh no_store : Bool) (ttl : Option Int)
    (source_sh source_cmd : Option String) (now : Int)
    (hneed : (force_refresh || (st.get_secret ns name).isNone ||
      (st.get_secret ns name).any (fun e => e.is_expired now)) = true) :
    (∀ sh, source_sh = some sh →
      (cmd_get fetch st idx ns name force_refresh false no_store ttl
          source_sh source_cmd now).fetches = [(sh, SourceType.sh)]) ∧
    (source_sh = none → ∀ c, source_cmd = some c →
      (cmd_get fetch st idx ns name force_refresh false no_store ttl
          source_sh source_cmd now).fetches = [(c, SourceType.cmd)]) ∧
    (source_sh = none → source_cmd = none →
      ∀ e c m, st.get_secret ns name = some e → e.source_command = some c →
        e.source_type = some m →
        (cmd_get fetch st idx ns name force_refresh false no_store ttl
            source_sh source_cmd now).fetches = [(c, m)]) ∧
    (source_sh = none → source_cmd = none →
      (∀ e, st.get_secret ns name = some e →
        e.source_command = none ∨ e.source_type = none) →
      (cmd_get fetch st idx ns name force_refresh false no_store ttl
          source_sh source_cmd now).outcome = some (.error HemliError.NoSource) ∧
      (cmd_get fetch st idx ns name force_refresh false no_store ttl
          source_sh source_cmd now).fetches = []) := by
  refine ⟨?_, ?_, ?_, ?_⟩
  · intro sh hsh
    subst hsh
    exact cmd_get_resolved_fetches fetch st idx ns name force_refresh no_store
      ttl _ source_cmd now sh SourceType.sh hneed rfl
  · intro hsh c hc
    subst hsh
    subst hc
    exact cmd_get_resolved_fetches fetch st idx ns name force_refresh no_store
      ttl _ _ now c SourceType.cmd hneed rfl
  · intro hsh hc e c m he hcmd hty
    subst hsh
    subst hc
    have hres : resolveSource none none (st.get_secret ns name) = .ok (c, m) := by
      rw [he]
      simp [resolveSource, hcmd, hty]
    exact cmd_get_resolved_fetches fetch st idx ns name force_refresh no_store
      ttl _ _ now c m hneed hres
  · intro hsh hc hmissing
    subst hsh
    subst hc
    have hres : resolveSource none none (st.get_secret ns name) =
        .error HemliError.NoSource := by
      cases he : st.get_secret ns name with
      | none => rfl
      | some e =>
          rcases hmissing e he with h | h <;>
            cases h1 : e.source_command <;> cases h2 : e.source_type <;>
              simp_all [resolveSource]
    rw [cmd_get_unresolved fetch st idx ns name force_refresh no_store ttl
      none none now HemliError.NoSource hneed hres]
    exact ⟨rfl, rfl⟩

theorem c2_source_precedence_witness :
    (cmd_get (fun _ _ => .ok "z") ⟨[]⟩ ⟨[]⟩ "a" "b" false false false none
        (some "echo hi") none 0).fetches = [("echo hi", SourceType.sh)] :=
  (c2_source_precedence (fun _ _ => .ok "z") ⟨[]⟩ ⟨[]⟩ "a" "b" false false
    none (some "echo hi") none 0 rfl).1 "echo hi" rfl

/-- A keyring `set_secret` makes the stored record visible to a subsequent
`get_secret` under the same key. -/
theorem get_secret_set_secret (st : Store) (ns name : String) (s : StoredSecret) :
    (st.set_secret ns name s).get_secret ns name = some s := by
  show ((setList st.entries ns name s).find?
    (fun e => e.1.1 == ns && e.1.2 == name)).map (fun e => e.2) = some s
  induction st.entries with
  | nil => simp [setList]
  | cons e rest ih =>
      by_cases h : (e.1.1 == ns && e.1.2 == name) = true
      · simp [setList, h]
      · simp only [setList, h, if_false, Bool.false_eq_true]
        rw [List.find?_cons_of_neg _ (by simp_all)]
        exact ih

/-- Fields of a record returned by `StoredSecret::new`. -/
theorem new_fields (v : String) (sc : Option String) (sty : Option SourceType)
    (ttl0 : Option Int) (now : Int) (s : StoredSecret)
    (h : StoredSecret.new v sc sty ttl0 now = some s) :
    s.value = v ∧ s.created_at = now ∧ s.ttl_seconds = ttl0 := by
  cases ttl0 with
  | none =>
      simp [StoredSecret.new] at h
      rw [← h]
      exact ⟨rfl, rfl, rfl⟩
  | some ttl1 =>
      simp only [StoredSecret.new] at h
      cases hc : checked_add now ttl1 with
      | none => rw [hc] at h; simp at h
      | some exp =>
          rw [hc] at h
          simp at h
          rw [← h]
          exact ⟨rfl, rfl, rfl⟩

/-- C7: a successful refresh (refresh needed, source resolved, fetch
succeeded, constructor returned) stores a brand-new record whose
`created_at` is the current time and whose `ttl_seconds` is the explicit
override if given, else the existing record's TTL, else absent; the fetched
value is returned. -/
theorem c7_refresh_new_record (fetch : String → SourceType → Except HemliError String)
    (st : Store) (idx : SecretIndex) (ns name : String) (force_refresh : Bool)
    (ttl : Option Int) (source_sh source_cmd : Option String) (now : Int)
    (c : String) (m : SourceType) (v : String) (s : StoredSecret)
    (hneed : (force_refresh || (st.get_secret ns name).isNone ||
      (st.get_secret ns name).any (fun e => e.is_expired now)) = true)
    (hres : resolveSource source_sh source_cmd (st.get_secret ns name) = .ok (c, m))
    (hfetch : fetch c m = .ok v)
    (hnew : StoredSecret.new v (some c) (some m)
      (ttl.or ((st.get_secret ns name).bind (fun e => e.ttl_seconds))) now = some s) :
    (cmd_get fetch st idx ns name force_refresh false false ttl
        source_sh source_cmd now).outcome = some (.ok v) ∧
    (cmd_get fetch st idx ns name force_refresh false false ttl
        source_sh source_cmd now).store.get_secret ns name = some s ∧
    s.created_at = now ∧
    s.ttl_seconds = ttl.or ((st.get_secret ns name).bind (fun e => e.ttl_seconds)) := by
  have hrun : cmd_get fetch st idx ns name force_refresh false false ttl
      source_sh source_cmd now =
      ⟨some (.ok v), st.set_secret ns name s,
        upsert_entry idx ns name s.created_at, [(c, m)]⟩ := by
    simp [cmd_get, hneed, hres, hfetch, hnew]
  rw [hrun]
  refine ⟨rfl, get_secret_set_secret st ns name s, ?_, ?_⟩
  · exact (new_fields _ _ _ _ _ _ hnew).2.1
  · exact (new_fields _ _ _ _ _ _ hnew).2.2

theorem c7_refresh_new_record_witness :
    (StoredSecret.mk "hello" 0 (some "echo hi") (some SourceType.sh) none none).created_at = 0 ∧
    (StoredSecret.mk "hello" 0 (some "echo hi") (some SourceType.sh) none none).ttl_seconds =
      (none : Option Int) :=
  ⟨(c7_refresh_new_record (fun _ _ => .ok "hello") ⟨[]⟩ ⟨[]⟩ "a" "b" false none
      (some "echo hi") none 0 "echo hi" SourceType.sh "hello"
      (StoredSecret.mk "hello" 0 (some "echo hi") (some SourceType.sh) none none)
      rfl rfl rfl rfl).2.2.1,
   (c7_refresh_new_record (fun _ _ => .ok "hello") ⟨[]⟩ ⟨[]⟩ "a" "b" false none
      (some "echo hi") none 0 "echo hi" SourceType.sh "hello"
      (StoredSecret.mk "hello" 0 (some "echo hi") (some SourceType.sh) none none)
      rfl rfl rfl rfl).2.2.2⟩

/-- The pair predicate is insensitive to `created_at`. -/
theorem entryMatches_set_created_at (ns name : String) (e : IndexEntry) (t : Int) :
    entryMatches ns name { e with created_at := t } = entryMatches ns name e := rfl

/-- The freshly upserted entry always matches its own key. -/
theorem entryMatches_self (ns name : String) (t : Int) :
    entryMatches ns name ⟨ns, name, t⟩ = true := by
  simp [entryMatches]

theorem upsertList_countP (l : List IndexEntry) (ns name : String) (t : Int)
    (hone : l.countP (entryMatches ns name) ≤ 1) :
    (upsertList l ns name t).countP (entryMatches ns name) = 1 := by
  induction l with
  | nil => simp [upsertList, entryMatches]
  | cons e rest ih =>
      by_cases h : (e.ns == ns && e.secret == name) = true
      · have hm : entryMatches ns name e = true := h
        have hrest : rest.countP (entryMatches ns name) = 0 := by
          rw [List.countP_cons_of_pos _ _ hm] at hone
          omega
        simp only [upsertList, h, if_true, List.countP_cons,
          entryMatches_set_created_at, hm, hrest]
      · have hm : entryMatches ns name e = false := by
          simpa [entryMatches] using h
        have hone' : rest.countP (entryMatches ns name) ≤ 1 := by
          rw [List.countP_cons_of_neg _ _ (by simp [hm])] at hone
          exact hone
        simp only [upsertList, h, if_false, Bool.false_eq_true, List.countP_cons,
          hm, ih hone']

theorem upsertList_find? (l : List IndexEntry) (ns name : String) (t : Int) :
    ((upsertList l ns name t).find? (entryMatches ns name)).map
      IndexEntry.created_at = some t := by
  induction l with
  | nil => simp [upsertList, entryMatches]
  | cons e rest ih =>
      by_cases h : (e.ns == ns && e.secret == name) = true
      · have hm : entryMatches ns name { e with created_at := t } = true := h
        simp only [upsertList, h, if_true]
        rw [List.find?_cons_of_pos _ hm]
        rfl
      · have hm : entryMatches ns name e = false := by
          simpa [entryMatches] using h
        simp only [upsertList, h, if_false, Bool.false_eq_true]
        rw [List.find?_cons_of_neg _ (by simp [hm])]
        exact ih

theorem upsertList_filter_others (l : List IndexEntry) (ns name : String) (t : Int) :
    (upsertList l ns name t).filter (fun e => !(entryMatches ns name e)) =
      l.filter (fun e => !(entryMatches ns name e)) := by
  induction l with
  | nil => simp [upsertList, entryMatches]
  | cons e rest ih =>
      by_cases h : (e.ns == ns && e.secret == name) = true
      · have hm : entryMatches ns name e = true := h
        simp only [upsertList, h, if_true]
        rw [List.filter_cons_of_neg (by simp [entryMatches_set_created_at, hm]),
          List.filter_cons_of_neg (by simp [hm])]
      · have hm : entryMatches ns name e = false := by
          simpa [entryMatches] using h
        simp only [upsertList, h, if_false, Bool.false_eq_true]
        rw [List.filter_cons_of_pos (by simp [hm]),
          List.filter_cons_of_pos (by simp [hm]), ih]

/-- C9: starting from an index holding at most one entry for a pair, any
nonempty sequence of `upsert_entry` calls for that pair leaves exactly one
entry for it, carrying the `created_at` of the last call, and leaves all
entries for other pairs unchanged. -/
theorem c9_upsert_idempotent (idx : SecretIndex) (ns name : String)
    (ts : List Int) (t : Int)
    (hone : idx.entries.countP (entryMatches ns name) ≤ 1) :
    ((ts ++ [t]).foldl (fun i u => upsert_entry i ns name u) idx).entries.countP
        (entryMatches ns name) = 1 ∧
    ((((ts ++ [t]).foldl (fun i u => upsert_entry i ns name u) idx).entries.find?
        (entryMatches ns name)).map IndexEntry.created_at = some t) ∧
    ((ts ++ [t]).foldl (fun i u => upsert_entry i ns name u) idx).entries.filter
        (fun e => !(entryMatches ns name e)) =
      idx.entries.filter (fun e => !(entryMatches ns name e)) := by
  induction ts generalizing idx with
  | nil =>
      simp only [List.nil_append, List.foldl_cons, List.foldl_nil]
      exact ⟨upsertList_countP idx.entries ns name t hone,
        upsertList_find? idx.entries ns name t,
        upsertList_filter_others idx.entries ns name t⟩
  | cons u ts ih =>
      simp only [List.cons_append, List.foldl_cons]
      have hone' : (upsert_entry idx ns name u).entries.countP
          (entryMatches ns name) ≤ 1 := by
        rw [show (upsert_entry idx ns name u).entries =
          upsertList idx.entries ns name u from rfl]
        rw [upsertList_countP idx.entries ns name u hone]
      obtain ⟨h1, h2, h3⟩ := ih (upsert_entry idx ns name u) hone'
      refine ⟨h1, h2, ?_⟩
      rw [h3]
      exact upsertList_filter_others idx.entries ns name u

theorem c9_upsert_idempotent_witness :
    (([1, 2] : List Int).foldl (fun i u => upsert_entry i "n" "s" u)
        ⟨[]⟩).entries.countP (entryMatches "n" "s") = 1 ∧
    ((([1, 2] : List Int).foldl (fun i u => upsert_entry i "n" "s" u)
        ⟨[]⟩).entries.find? (entryMatches "n" "s")).map IndexEntry.created_at =
      some 2 :=
  ⟨(c9_upsert_idempotent ⟨[]⟩ "n" "s" [1] 2 (by decide)).1,
   (c9_upsert_idempotent ⟨[]⟩ "n" "s" [1] 2 (by decide)).2.1⟩
